import Mathlib

/-!
Verification development for the `s3mem-run` utility
(`src/s3mem-run/src/main.rs`): a program that downloads one S3 object in
parallel byte-range chunks into a `memfd` memory file and then replaces the
current process image with a target program that receives the memory file.

Shallow embedding conventions:
* Sizes and offsets are natural numbers.  In the source they are `i64`/`u64`
  values that are always non-negative (object sizes, byte offsets), so Rust's
  truncating `i64` division and arithmetic coincide with `ℕ` division and
  arithmetic on the values that actually occur.
* `f64` arithmetic in `calculate_optimal_concurrency` is modelled by exact
  rational arithmetic (`ℚ`); `f64::round` (round half away from zero) agrees
  with Mathlib's `round` (round half up) on non-negative values, which are the
  only values that reach it.
* The chunk-planning `while` loop is modelled by a fuel-indexed recursion
  (`planRangesAux`); fuel `total_size` is enough because every iteration
  advances `start` by at least one byte.
* External effects (S3 metadata probe, ranged GET, `memfd_create`,
  `ftruncate`, positioned writes) are modelled by an oracle structure
  `S3World` recording each operation's outcome; the orchestration code is a
  pure function of that oracle.  The await loop writes chunks sequentially in
  task order, exactly as the source's final `for task in tasks` loop does.
* Byte buffers are `List ℕ`; a positioned write has POSIX file semantics
  (grow to `max size (offset + len)`, holes are zero bytes).
-/

/-! ### Constants (lines 21-25 of the source) -/

def MIN_CHUNK_SIZE : ℕ := 4 * 1024 * 1024

def MAX_CHUNK_SIZE : ℕ := 128 * 1024 * 1024

def MIN_CONCURRENT_DOWNLOADS : ℕ := 4

def MAX_CONCURRENT_DOWNLOADS : ℕ := 16

def TARGET_CHUNKS_PER_FILE : ℕ := 75

/-- Rust's `Ord::clamp`: `if x < lo { lo } else if x > hi { hi } else { x }`
(the `lo ≤ hi` assertion always holds at the one call site). -/
def natClamp (x lo hi : ℕ) : ℕ :=
  if x < lo then lo else if hi < x then hi else x

/-- `calculate_optimal_chunk_size` (source lines 57-63):
`(file_size / TARGET_CHUNKS_PER_FILE).clamp(MIN_CHUNK_SIZE, MAX_CHUNK_SIZE)`. -/
def calculate_optimal_chunk_size (file_size : ℕ) : ℕ :=
  natClamp (file_size / TARGET_CHUNKS_PER_FILE) MIN_CHUNK_SIZE MAX_CHUNK_SIZE

/-- `file_size as f64 / (1024.0 * 1024.0 * 1024.0)`, as an exact rational. -/
def sizeGb (file_size : ℕ) : ℚ :=
  (file_size : ℚ) / (1024 * 1024 * 1024)

/-- `calculate_optimal_concurrency` (source lines 68-86).  The `f64`
computation is modelled exactly over `ℚ`; `f64::round` on the non-negative
values occurring here agrees with Mathlib's `round`. -/
def calculate_optimal_concurrency (file_size : ℕ) : ℕ :=
  if sizeGb file_size ≤ 0.5 then MIN_CONCURRENT_DOWNLOADS
  else if 10 ≤ sizeGb file_size then MAX_CONCURRENT_DOWNLOADS
  else
    MIN_CONCURRENT_DOWNLOADS +
      (round ((sizeGb file_size - 0.5) / 9.5 *
        ((MAX_CONCURRENT_DOWNLOADS - MIN_CONCURRENT_DOWNLOADS : ℕ) : ℚ))).toNat

/-! ### The chunk-planning loop (source lines 219-257)

```
let mut start = 0i64;
while start < total_size {
    let end = (start + chunk_size - 1).min(total_size - 1);
    ... push (start, end) ...
    start = end + 1;
}
```

`planRangesAux` runs this loop with explicit fuel; each iteration advances
`start` by at least 1 (chunk sizes are at least `MIN_CHUNK_SIZE ≥ 1`), so
fuel `total_size` reproduces the loop exactly. -/

def planRangesAux (ts cs : ℕ) : ℕ → ℕ → List (ℕ × ℕ)
  | 0, _ => []
  | fuel + 1, start =>
    if start < ts then
      (start, min (start + cs - 1) (ts - 1)) ::
        planRangesAux ts cs fuel (min (start + cs - 1) (ts - 1) + 1)
    else []

/-- The sequence of inclusive byte ranges scheduled by
`parallel_download_to_memfd` for an object of `ts` bytes with chunk size
`cs`. -/
def planRanges (ts cs : ℕ) : List (ℕ × ℕ) :=
  planRangesAux ts cs ts 0

/-! ### `MemFile::write_at` (source lines 116-127)

`seek(SeekFrom::Start(offset))` followed by `write_all(data)` on a regular
(memfd) file: bytes `[offset, offset + data.len())` become `data`, all other
existing bytes are preserved, and the file grows to
`max size (offset + len)` (holes read as zero). -/

def write_at (buf data : List ℕ) (offset : ℕ) : List ℕ :=
  (List.range (max buf.length (offset + data.length))).map fun i =>
    if offset ≤ i ∧ i < offset + data.length then data.getD (i - offset) 0
    else buf.getD i 0

/-! ### `str::replace` (used at source lines 322-325)

`arg.replace(memfd_placeholder, &memfd_path)` scans left to right and
replaces each leftmost non-overlapping occurrence of the pattern.  Strings
are modelled as `List Char`; the scan is given explicit fuel (`s.length`
suffices because every step consumes at least one character).  The model
covers non-empty patterns; `replaceAux` leaves the string unchanged when the
pattern is empty, and all statements about it assume a non-empty
placeholder. -/

def replaceAux (pat rep : List Char) : ℕ → List Char → List Char
  | 0, s => s
  | _ + 1, [] => []
  | fuel + 1, c :: rest =>
    if pat ≠ [] ∧ (c :: rest).take pat.length = pat then
      rep ++ replaceAux pat rep fuel ((c :: rest).drop pat.length)
    else
      c :: replaceAux pat rep fuel rest

/-- `s.replace(pat, rep)` for a string `s`. -/
def rustReplace (s pat rep : List Char) : List Char :=
  replaceAux pat rep s.length s

/-- The placeholder substitution performed on the argument list
(source lines 322-325): `args.iter().map(|arg| arg.replace(placeholder, path))`. -/
def substitutePlaceholder (args : List (List Char)) (pat rep : List Char) :
    List (List Char) :=
  args.map fun arg => rustReplace arg pat rep

/-- `pat` occurs in `s` at position `i`. -/
def OccursAt (pat s : List Char) (i : ℕ) : Prop :=
  (s.drop i).take pat.length = pat

instance (pat s : List Char) (i : ℕ) : Decidable (OccursAt pat s i) := by
  unfold OccursAt; infer_instance

/-! ### The external world oracle

Outcomes of the effectful operations the downloader performs, one field per
kind of effect.  Each S3 ranged GET's outcome is a function of the requested
range, each positioned write's outcome a function of the (await-order) index
of the chunk being written. -/

/-- Outcome of one `get_object ... send()` / `body.collect()` pair. -/
inductive FetchOutcome where
  | getError
  | collectError
  | body (bytes : List ℕ)
deriving DecidableEq

structure S3World where
  /-- Outcome of the `head_object` probe together with `content_length`
  extraction: either the total object size or the failing stage's error. -/
  headSize : Except String ℕ
  /-- Outcome of `memfd_create`. -/
  memfdCreate : Except String Unit
  /-- The raw file descriptor number of the created memfd. -/
  fd : ℕ
  /-- Whether the `ftruncate(fd, total_size)` pre-sizing call succeeds. -/
  ftruncateOk : Bool
  /-- Outcome of the ranged GET for inclusive range `[start, end]`. -/
  fetch : ℕ → ℕ → FetchOutcome
  /-- Whether the `i`-th positioned write (in await order) succeeds. -/
  writeOk : ℕ → Bool

/-- `download_chunk` (source lines 133-168): issue the ranged GET, collect
the body, and return `(bytes, start)`.  The body is returned as collected;
the function performs no length validation. -/
def download_chunk (w : S3World) (start e : ℕ) : Except String (List ℕ × ℕ) :=
  match w.fetch start e with
  | .getError => .error "Failed to get object from S3"
  | .collectError => .error "Failed to collect response body"
  | .body bytes => .ok (bytes, start)

/-- The list of spawned tasks' results, in spawn order (one per planned
range).  Each task's result is determined by the world oracle. -/
def taskResults (w : S3World) (ts : ℕ) : List (Except String (List ℕ × ℕ)) :=
  (planRanges ts (calculate_optimal_chunk_size ts)).map fun r =>
    download_chunk w r.1 r.2

/-- The await loop (source lines 262-290): await each task in spawn order;
on a task failure return that error; otherwise `write_at` the chunk and
continue.  The second component counts how many tasks were awaited before
the loop returned (used to state the draining behaviour); it is
instrumentation of the model, not part of the source's return value. -/
def drainTasks (wo : ℕ → Bool) :
    List (Except String (List ℕ × ℕ)) → ℕ → List ℕ →
      Except String (List ℕ) × ℕ
  | [], _, buf => (.ok buf, 0)
  | t :: rest, idx, buf =>
    match t with
    | .error e => (.error e, 1)
    | .ok (data, offset) =>
      if wo idx then
        let r := drainTasks wo rest (idx + 1) (write_at buf data offset)
        (r.1, r.2 + 1)
      else (.error "Failed to write to memfd", 1)

/-- `parallel_download_to_memfd` (source lines 173-294), instrumented with
the number of awaited tasks: head probe, chunk/concurrency sizing, memfd
creation, `ftruncate` pre-sizing, spawning one task per planned range, then
the await-and-write loop. -/
def parallel_download_instr (w : S3World) : Except String (List ℕ) × ℕ :=
  match w.headSize with
  | .error e => (.error e, 0)
  | .ok total_size =>
    match w.memfdCreate with
    | .error e => (.error e, 0)
    | .ok _ =>
      if w.ftruncateOk then
        drainTasks w.writeOk (taskResults w total_size) 0
          (List.replicate total_size 0)
      else (.error "Failed to set file size", 0)

/-- `parallel_download_to_memfd`'s result (the source's return value). -/
def parallel_download_to_memfd (w : S3World) : Except String (List ℕ) :=
  (parallel_download_instr w).1

/-- Number of ranges admitted (spawned): the spawn loop runs to completion
before the await loop starts, so every planned range is admitted. -/
def admittedCount (w : S3World) : ℕ :=
  match w.headSize with
  | .error _ => 0
  | .ok total_size => (planRanges total_size (calculate_optimal_chunk_size total_size)).length

/-- `"/proc/self/fd/" ++ fd` (source line 314). -/
def memfdPathChars (fd : ℕ) : List Char :=
  "/proc/self/fd/".toList ++ (Nat.repr fd).toList

/-- Observable outcome of `create_memfd_and_exec`: either the error that
propagated out before `exec`, or the `exec` call itself, recording the
program, the substituted argument list, the value stored in the
process-wide `MEMFD_PATH` environment variable just before `exec`, and the
buffer contents handed over. -/
inductive RunOutcome where
  | failed (e : String)
  | execCalled (program : List Char) (finalArgs : List (List Char))
      (envMemfdPath : List Char) (buf : List ℕ)
deriving DecidableEq

/-- `create_memfd_and_exec` (source lines 299-346): download; on error
propagate; on success resolve the memfd path, set `MEMFD_PATH`, substitute
the placeholder in every argument, forget the memfile and exec. -/
def create_memfd_and_exec (w : S3World) (program : List Char)
    (args : List (List Char)) (memfd_placeholder : List Char) : RunOutcome :=
  match parallel_download_to_memfd w with
  | .error e => .failed e
  | .ok buf =>
    .execCalled program
      (substitutePlaceholder args memfd_placeholder (memfdPathChars w.fd))
      (memfdPathChars w.fd) buf

/-! ### The admission (semaphore) protocol (source lines 214-257)

The spawn loop acquires one of `concurrency` owned permits before spawning a
chunk task; the task drops its permit immediately after `download_chunk`
settles (success or failure), before its result is awaited or written.  The
interleaving of these events is modelled as a transition system counting
ranges not yet admitted, free permits, in-flight fetches (spawned, holding a
permit) and settled fetches (permit released). -/

structure DLState where
  pending : ℕ
  available : ℕ
  inFlight : ℕ
  settled : ℕ
deriving DecidableEq

/-- One scheduler step: `acquire` takes a free permit and spawns the next
range's fetch; `settle` completes an in-flight fetch (successfully or not)
and immediately releases its permit. -/
inductive DLStep : DLState → DLState → Prop where
  | acquire (s : DLState) (hp : 0 < s.pending) (ha : 0 < s.available) :
      DLStep s ⟨s.pending - 1, s.available - 1, s.inFlight + 1, s.settled⟩
  | settle (s : DLState) (hf : 0 < s.inFlight) :
      DLStep s ⟨s.pending, s.available + 1, s.inFlight - 1, s.settled + 1⟩

/-- Initial state: all ranges pending, `concurrency` free permits, nothing
in flight. -/
def DLInit (numRanges concurrency : ℕ) : DLState :=
  ⟨numRanges, concurrency, 0, 0⟩

/-- States reachable during the download of `numRanges` ranges at the given
concurrency. -/
def DLReachable (numRanges concurrency : ℕ) (s : DLState) : Prop :=
  Relation.ReflTransGen DLStep (DLInit numRanges concurrency) s

/-! ### Basic facts about the sizing policy -/

theorem natClamp_le_of_le {x y lo hi : ℕ} (hlohi : lo ≤ hi) (hxy : x ≤ y) :
    natClamp x lo hi ≤ natClamp y lo hi := by
  unfold natClamp; split_ifs <;> omega

theorem natClamp_bounds (x lo hi : ℕ) (h : lo ≤ hi) :
    lo ≤ natClamp x lo hi ∧ natClamp x lo hi ≤ hi := by
  unfold natClamp; split_ifs <;> omega

theorem chunk_size_pos (ts : ℕ) : 0 < calculate_optimal_chunk_size ts := by
  have h := natClamp_bounds (ts / TARGET_CHUNKS_PER_FILE) MIN_CHUNK_SIZE
    MAX_CHUNK_SIZE (by norm_num [MIN_CHUNK_SIZE, MAX_CHUNK_SIZE])
  have : 0 < MIN_CHUNK_SIZE := by norm_num [MIN_CHUNK_SIZE]
  unfold calculate_optimal_chunk_size
  omega

/-! ### Properties of the planning loop -/

theorem planRangesAux_nil {ts cs start : ℕ} (h : ¬ start < ts) :
    ∀ fuel, planRangesAux ts cs fuel start = [] := by
  intro fuel
  cases fuel with
  | zero => rfl
  | succ n => simp [planRangesAux, h]

theorem planRangesAux_head {ts cs start : ℕ} (h : start < ts) :
    ∀ fuel, 0 < fuel →
      (planRangesAux ts cs fuel start).head? =
        some (start, min (start + cs - 1) (ts - 1)) := by
  intro fuel hf
  cases fuel with
  | zero => omega
  | succ n => simp [planRangesAux, h]

theorem planRangesAux_bounds {ts cs : ℕ} (hcs : 0 < cs) :
    ∀ fuel start, ∀ r ∈ planRangesAux ts cs fuel start,
      start ≤ r.1 ∧ r.1 ≤ r.2 ∧ r.2 + 1 ≤ ts ∧ r.2 + 1 ≤ r.1 + cs := by
  intro fuel
  induction fuel with
  | zero => intro start r hr; simp [planRangesAux] at hr
  | succ n ih =>
    intro start r hr
    by_cases h : start < ts
    · simp only [planRangesAux, if_pos h, List.mem_cons] at hr
      rcases hr with rfl | hr
      · simp only
        omega
      · have := ih _ r hr
        omega
    · rw [planRangesAux_nil h] at hr
      simp at hr

theorem planRangesAux_length {ts cs : ℕ} (hcs : 0 < cs) :
    ∀ fuel start, ts - start ≤ fuel →
      (planRangesAux ts cs fuel start).length = (ts - start + cs - 1) / cs := by
  intro fuel
  induction fuel with
  | zero =>
    intro start h
    have hs : ¬ start < ts := by omega
    rw [planRangesAux_nil hs]
    have h0 : ts - start = 0 := by omega
    rw [h0, List.length_nil, Nat.div_eq_of_lt (by omega)]
  | succ n ih =>
    intro start h
    by_cases hlt : start < ts
    · simp only [planRangesAux, if_pos hlt, List.length_cons]
      set e := min (start + cs - 1) (ts - 1) with he
      have he1 : start ≤ e := by omega
      have he2 : e + 1 ≤ ts := by omega
      have hrec : ts - (e + 1) ≤ n := by omega
      rw [ih _ hrec]
      have hd : 1 ≤ ts - start := by omega
      rw [show ts - start + cs - 1 = (ts - start - 1) + cs by omega,
        Nat.add_div_right _ hcs]
      by_cases hc : start + cs ≤ ts
      · have : e = start + cs - 1 := by omega
        have : ts - (e + 1) + cs - 1 = ts - start - 1 := by omega
        rw [this]
      · have : e = ts - 1 := by omega
        have h0 : ts - (e + 1) + cs - 1 = cs - 1 := by omega
        have h1 : ts - start - 1 < cs := by omega
        rw [h0, Nat.div_eq_of_lt (by omega), Nat.div_eq_of_lt h1]
    · rw [planRangesAux_nil hlt]
      have h0 : ts - start = 0 := by omega
      rw [h0, List.length_nil, Nat.div_eq_of_lt (by omega)]

theorem planRangesAux_sum {ts cs : ℕ} (hcs : 0 < cs) :
    ∀ fuel start, ts - start ≤ fuel →
      ((planRangesAux ts cs fuel start).map fun r => r.2 - r.1 + 1).sum =
        ts - start := by
  intro fuel
  induction fuel with
  | zero =>
    intro start h
    have hs : ¬ start < ts := by omega
    rw [planRangesAux_nil hs]
    simp only [List.map_nil, List.sum_nil]
    omega
  | succ n ih =>
    intro start h
    by_cases hlt : start < ts
    · simp only [planRangesAux, if_pos hlt, List.map_cons, List.sum_cons]
      set e := min (start + cs - 1) (ts - 1) with he
      have he1 : start ≤ e := by omega
      have he2 : e + 1 ≤ ts := by omega
      rw [ih _ (by omega)]
      omega
    · rw [planRangesAux_nil hlt]
      simp only [List.map_nil, List.sum_nil]
      omega

theorem planRangesAux_last {ts cs : ℕ} (hcs : 0 < cs) :
    ∀ fuel start, ts - start ≤ fuel → start < ts →
      ((planRangesAux ts cs fuel start).getLast?).map Prod.snd =
        some (ts - 1) := by
  intro fuel
  induction fuel with
  | zero => intro start h hlt; omega
  | succ n ih =>
    intro start h hlt
    simp only [planRangesAux, if_pos hlt]
    set e := min (start + cs - 1) (ts - 1) with he
    have he1 : start ≤ e := by omega
    have he2 : e + 1 ≤ ts := by omega
    by_cases hnext : e + 1 < ts
    · have hne := ih (e + 1) (by omega) hnext
      cases hrest : planRangesAux ts cs n (e + 1) with
      | nil => rw [hrest] at hne; simp at hne
      | cons b t =>
        rw [hrest] at hne
        rw [List.getLast?_cons_cons]
        exact hne
    · have : planRangesAux ts cs n (e + 1) = [] := planRangesAux_nil hnext n
      rw [this]
      simp only [List.getLast?_singleton, Option.map_some']
      have : e = ts - 1 := by omega
      rw [this]

theorem planRangesAux_chain {ts cs : ℕ} :
    ∀ fuel start,
      List.Chain' (fun a b : ℕ × ℕ => b.1 = a.2 + 1)
        (planRangesAux ts cs fuel start) := by
  intro fuel
  induction fuel with
  | zero => intro start; simp [planRangesAux]
  | succ n ih =>
    intro start
    by_cases hlt : start < ts
    · simp only [planRangesAux, if_pos hlt]
      rw [List.chain'_cons']
      refine ⟨?_, ih _⟩
      intro b hb
      set e := min (start + cs - 1) (ts - 1) with he
      by_cases hnext : e + 1 < ts
      · rw [planRangesAux_head hnext] at hb
        · simp only [Option.mem_def, Option.some.injEq] at hb
          rw [← hb]
        · cases n with
          | zero =>
            exfalso
            revert hb
            simp [planRangesAux]
          | succ m => omega
      · rw [planRangesAux_nil hnext] at hb
        simp at hb
    · rw [planRangesAux_nil hlt]
      simp

theorem planRangesAux_pairwise {ts cs : ℕ} (hcs : 0 < cs) :
    ∀ fuel start,
      List.Pairwise (fun a b : ℕ × ℕ => a.2 < b.1)
        (planRangesAux ts cs fuel start) := by
  intro fuel
  induction fuel with
  | zero => intro start; simp [planRangesAux]
  | succ n ih =>
    intro start
    by_cases hlt : start < ts
    · simp only [planRangesAux, if_pos hlt]
      rw [List.pairwise_cons]
      refine ⟨?_, ih _⟩
      intro r hr
      have := planRangesAux_bounds hcs n _ r hr
      simp only
      omega
    · rw [planRangesAux_nil hlt]
      simp

/-- **C1**: for every `total_size > 0` and the chunk size computed for it,
the ranges produced by the planning loop partition `[0, total_size)`: the
first range starts at 0, the last ends at `total_size - 1`, consecutive
ranges are contiguous (`next.start = prev.end + 1`), the ranges are pairwise
non-overlapping (ordered with `prev.end < next.start`), the lengths
`end - start + 1` sum to `total_size`, and the number of ranges is
`⌈total_size / chunk_size⌉ = (total_size + chunk_size - 1) / chunk_size`. -/
theorem claim_C1_partition (ts : ℕ) (hts : 0 < ts) :
    (planRanges ts (calculate_optimal_chunk_size ts)).head?.map Prod.fst =
        some 0 ∧
    ((planRanges ts (calculate_optimal_chunk_size ts)).getLast?).map Prod.snd =
        some (ts - 1) ∧
    List.Chain' (fun a b : ℕ × ℕ => b.1 = a.2 + 1)
        (planRanges ts (calculate_optimal_chunk_size ts)) ∧
    List.Pairwise (fun a b : ℕ × ℕ => a.2 < b.1)
        (planRanges ts (calculate_optimal_chunk_size ts)) ∧
    ((planRanges ts (calculate_optimal_chunk_size ts)).map
        fun r => r.2 - r.1 + 1).sum = ts ∧
    (planRanges ts (calculate_optimal_chunk_size ts)).length =
      (ts + calculate_optimal_chunk_size ts - 1) /
        calculate_optimal_chunk_size ts := by
  have hcs := chunk_size_pos ts
  set cs := calculate_optimal_chunk_size ts
  unfold planRanges
  refine ⟨?_, ?_, ?_, ?_, ?_, ?_⟩
  · rw [planRangesAux_head hts ts hts]
    rfl
  · exact planRangesAux_last hcs ts 0 (by omega) hts
  · exact planRangesAux_chain ts 0
  · exact planRangesAux_pairwise hcs ts 0
  · rw [planRangesAux_sum hcs ts 0 (by omega)]
    omega
  · rw [planRangesAux_length hcs ts 0 (by omega), Nat.sub_zero]

/-- Witness for C1 at the spec's scenario size 10,000,000. -/
theorem claim_C1_partition_witness :
    0 < 10000000 ∧
    ((planRanges 10000000 (calculate_optimal_chunk_size 10000000)).head?.map
          Prod.fst = some 0 ∧
      ((planRanges 10000000
            (calculate_optimal_chunk_size 10000000)).getLast?).map Prod.snd =
        some (10000000 - 1) ∧
      List.Chain' (fun a b : ℕ × ℕ => b.1 = a.2 + 1)
        (planRanges 10000000 (calculate_optimal_chunk_size 10000000)) ∧
      List.Pairwise (fun a b : ℕ × ℕ => a.2 < b.1)
        (planRanges 10000000 (calculate_optimal_chunk_size 10000000)) ∧
      ((planRanges 10000000 (calculate_optimal_chunk_size 10000000)).map
          fun r => r.2 - r.1 + 1).sum = 10000000 ∧
      (planRanges 10000000 (calculate_optimal_chunk_size 10000000)).length =
        (10000000 + calculate_optimal_chunk_size 10000000 - 1) /
          calculate_optimal_chunk_size 10000000) :=
  ⟨by norm_num, claim_C1_partition 10000000 (by norm_num)⟩

/-- **C6**: `calculate_optimal_chunk_size` equals `total_size / 75` clamped
to `[4 MiB, 128 MiB]`, its result always lies in that interval, and it is
non-decreasing in `total_size`. -/
theorem claim_C6_chunk_size (a b : ℕ) (hab : a ≤ b) :
    calculate_optimal_chunk_size a =
        natClamp (a / 75) (4 * 1024 * 1024) (128 * 1024 * 1024) ∧
    4 * 1024 * 1024 ≤ calculate_optimal_chunk_size a ∧
    calculate_optimal_chunk_size a ≤ 128 * 1024 * 1024 ∧
    calculate_optimal_chunk_size a ≤ calculate_optimal_chunk_size b := by
  have hb := natClamp_bounds (a / TARGET_CHUNKS_PER_FILE) MIN_CHUNK_SIZE
    MAX_CHUNK_SIZE (by norm_num [MIN_CHUNK_SIZE, MAX_CHUNK_SIZE])
  refine ⟨rfl, ?_, ?_, ?_⟩
  · exact hb.1
  · exact hb.2
  · exact natClamp_le_of_le (by norm_num [MIN_CHUNK_SIZE, MAX_CHUNK_SIZE])
      (Nat.div_le_div_right hab)

/-- Witness for C6 at sizes 10,000,000 ≤ 20 GiB. -/
theorem claim_C6_chunk_size_witness :
    10000000 ≤ 20 * 1024 * 1024 * 1024 ∧
    (calculate_optimal_chunk_size 10000000 =
        natClamp (10000000 / 75) (4 * 1024 * 1024) (128 * 1024 * 1024) ∧
      4 * 1024 * 1024 ≤ calculate_optimal_chunk_size 10000000 ∧
      calculate_optimal_chunk_size 10000000 ≤ 128 * 1024 * 1024 ∧
      calculate_optimal_chunk_size 10000000 ≤
        calculate_optimal_chunk_size (20 * 1024 * 1024 * 1024)) :=
  ⟨by norm_num, claim_C6_chunk_size 10000000 (20 * 1024 * 1024 * 1024)
    (by norm_num)⟩

/-! ### Properties of `calculate_optimal_concurrency` -/

theorem sizeGb_mono {a b : ℕ} (hab : a ≤ b) : sizeGb a ≤ sizeGb b := by
  unfold sizeGb
  apply div_le_div_of_nonneg_right ?_ (by norm_num)
  exact_mod_cast hab

/-- The interpolation branch's value, as a function of `size_gb`. -/
def interpConcurrency (g : ℚ) : ℕ :=
  MIN_CONCURRENT_DOWNLOADS +
    (round ((g - 0.5) / 9.5 *
      ((MAX_CONCURRENT_DOWNLOADS - MIN_CONCURRENT_DOWNLOADS : ℕ) : ℚ))).toNat

theorem interpConcurrency_bounds {g : ℚ} (h1 : 0.5 < g) (h2 : g < 10) :
    4 ≤ interpConcurrency g ∧ interpConcurrency g ≤ 16 := by
  unfold interpConcurrency MIN_CONCURRENT_DOWNLOADS MAX_CONCURRENT_DOWNLOADS
  have hx : (0 : ℚ) ≤ (g - 0.5) / 9.5 * ((16 - 4 : ℕ) : ℚ) := by
    have : (0 : ℚ) ≤ (g - 0.5) / 9.5 := by
      apply div_nonneg (by linarith) (by norm_num)
    positivity
  have hub : (g - 0.5) / 9.5 * ((16 - 4 : ℕ) : ℚ) < 12 := by
    have hlt : (g - 0.5) / 9.5 < 1 := by
      rw [div_lt_one (by norm_num)]
      linarith
    have : ((16 - 4 : ℕ) : ℚ) = 12 := by norm_num
    rw [this]
    nlinarith
  constructor
  · omega
  · have hr : round ((g - 0.5) / 9.5 * ((16 - 4 : ℕ) : ℚ)) ≤ 12 := by
      rw [round_eq]
      have : ⌊(12.5 : ℚ)⌋ = 12 := by norm_num [Int.floor_eq_iff]
      calc ⌊(g - 0.5) / 9.5 * ((16 - 4 : ℕ) : ℚ) + 1 / 2⌋
          ≤ ⌊(12.5 : ℚ)⌋ := Int.floor_mono (by linarith)
        _ = 12 := this
    omega

theorem interpConcurrency_mono {g1 g2 : ℚ} (h : g1 ≤ g2) :
    interpConcurrency g1 ≤ interpConcurrency g2 := by
  unfold interpConcurrency
  have hr : round ((g1 - 0.5) / 9.5 *
        ((MAX_CONCURRENT_DOWNLOADS - MIN_CONCURRENT_DOWNLOADS : ℕ) : ℚ)) ≤
      round ((g2 - 0.5) / 9.5 *
        ((MAX_CONCURRENT_DOWNLOADS - MIN_CONCURRENT_DOWNLOADS : ℕ) : ℚ)) := by
    rw [round_eq, round_eq]
    apply Int.floor_mono
    have h12 : ((MAX_CONCURRENT_DOWNLOADS - MIN_CONCURRENT_DOWNLOADS : ℕ) : ℚ) =
        12 := by norm_num [MIN_CONCURRENT_DOWNLOADS, MAX_CONCURRENT_DOWNLOADS]
    rw [h12]
    have : (g1 - 0.5) / 9.5 ≤ (g2 - 0.5) / 9.5 := by
      apply div_le_div_of_nonneg_right ?_ (by norm_num)
      linarith
    nlinarith
  have := Int.toNat_le_toNat hr
  omega

theorem concurrency_branch_low {fs : ℕ} (h : sizeGb fs ≤ 0.5) :
    calculate_optimal_concurrency fs = 4 := by
  unfold calculate_optimal_concurrency
  rw [if_pos h]
  rfl

theorem concurrency_branch_high {fs : ℕ} (h : 10 ≤ sizeGb fs) :
    calculate_optimal_concurrency fs = 16 := by
  unfold calculate_optimal_concurrency
  rw [if_neg (by linarith), if_pos h]
  rfl

theorem concurrency_branch_mid {fs : ℕ} (h1 : 0.5 < sizeGb fs)
    (h2 : sizeGb fs < 10) :
    calculate_optimal_concurrency fs = interpConcurrency (sizeGb fs) := by
  unfold calculate_optimal_concurrency interpConcurrency
  rw [if_neg (by linarith), if_neg (by linarith)]

theorem concurrency_mono {a b : ℕ} (hab : a ≤ b) :
    calculate_optimal_concurrency a ≤ calculate_optimal_concurrency b := by
  have hg := sizeGb_mono hab
  by_cases ha1 : sizeGb a ≤ 0.5
  · rw [concurrency_branch_low ha1]
    by_cases hb1 : sizeGb b ≤ 0.5
    · rw [concurrency_branch_low hb1]
    · by_cases hb2 : 10 ≤ sizeGb b
      · rw [concurrency_branch_high hb2]; omega
      · rw [concurrency_branch_mid (by linarith) (by linarith)]
        exact (interpConcurrency_bounds (by linarith) (by linarith)).1
  · by_cases ha2 : 10 ≤ sizeGb a
    · rw [concurrency_branch_high ha2, concurrency_branch_high (by linarith)]
    · have hmida := @concurrency_branch_mid a (by linarith) (by linarith)
      rw [hmida]
      by_cases hb2 : 10 ≤ sizeGb b
      · rw [concurrency_branch_high hb2]
        exact (interpConcurrency_bounds (by linarith) (by linarith)).2
      · rw [@concurrency_branch_mid b (by linarith) (by linarith)]
        exact interpConcurrency_mono hg

/-- **C7 counterexample**: `total_size = 2^29 + 1 = 536870913` bytes is an
intermediate size (`0.5 GiB < size < 10 GiB`), yet the computed concurrency
is exactly `4`, not a value strictly between 4 and 16 as the claim states:
the rounded interpolation term is 0 at sizes just above 0.5 GiB. -/
theorem claim_C7_counterexample :
    (0.5 : ℚ) < sizeGb 536870913 ∧ sizeGb 536870913 < 10 ∧
    calculate_optimal_concurrency 536870913 = 4 ∧
    ¬ (4 < calculate_optimal_concurrency 536870913 ∧
        calculate_optimal_concurrency 536870913 < 16) := by
  have hgb : sizeGb 536870913 = 536870913 / 1073741824 := by
    unfold sizeGb; norm_num
  have h1 : (0.5 : ℚ) < sizeGb 536870913 := by rw [hgb]; norm_num
  have h2 : sizeGb 536870913 < 10 := by rw [hgb]; norm_num
  have hval : calculate_optimal_concurrency 536870913 = 4 := by
    rw [concurrency_branch_mid h1 h2]
    unfold interpConcurrency MIN_CONCURRENT_DOWNLOADS MAX_CONCURRENT_DOWNLOADS
    have hr : round ((sizeGb 536870913 - 0.5) / 9.5 * ((16 - 4 : ℕ) : ℚ)) =
        0 := by
      rw [round_eq_zero_iff, hgb]
      constructor <;> norm_num
    rw [hr]
    rfl
  exact ⟨h1, h2, hval, by omega⟩

/-- **C7 (amended)**: `calculate_optimal_concurrency` returns 4 when
`size_gb ≤ 0.5`, 16 when `size_gb ≥ 10`, and otherwise
`4 + round((size_gb - 0.5)/9.5 * 12)` — a value in the closed interval
`[4, 16]` (it equals 4 for sizes just above 0.5 GiB and 16 for sizes just
below 10 GiB, so it is not always strictly between); the function is
monotone non-decreasing in `total_size`. -/
theorem claim_C7_amended (a b : ℕ) (hab : a ≤ b) :
    (sizeGb a ≤ 0.5 → calculate_optimal_concurrency a = 4) ∧
    (10 ≤ sizeGb a → calculate_optimal_concurrency a = 16) ∧
    (0.5 < sizeGb a → sizeGb a < 10 →
      calculate_optimal_concurrency a =
          4 + (round ((sizeGb a - 0.5) / 9.5 * 12)).toNat ∧
        4 ≤ calculate_optimal_concurrency a ∧
        calculate_optimal_concurrency a ≤ 16) ∧
    calculate_optimal_concurrency a ≤ calculate_optimal_concurrency b := by
  refine ⟨concurrency_branch_low, concurrency_branch_high, ?_, concurrency_mono hab⟩
  intro h1 h2
  have hmid := @concurrency_branch_mid a h1 h2
  have hb := interpConcurrency_bounds h1 h2
  refine ⟨?_, by omega, by omega⟩
  rw [hmid]
  unfold interpConcurrency MIN_CONCURRENT_DOWNLOADS MAX_CONCURRENT_DOWNLOADS
  norm_num

/-- Witness for the amended C7, applied at sizes 1 ≤ 2. -/
theorem claim_C7_amended_witness :
    (1 : ℕ) ≤ 2 ∧
    ((sizeGb 1 ≤ 0.5 → calculate_optimal_concurrency 1 = 4) ∧
      (10 ≤ sizeGb 1 → calculate_optimal_concurrency 1 = 16) ∧
      (0.5 < sizeGb 1 → sizeGb 1 < 10 →
        calculate_optimal_concurrency 1 =
            4 + (round ((sizeGb 1 - 0.5) / 9.5 * 12)).toNat ∧
          4 ≤ calculate_optimal_concurrency 1 ∧
          calculate_optimal_concurrency 1 ≤ 16) ∧
      calculate_optimal_concurrency 1 ≤ calculate_optimal_concurrency 2) :=
  ⟨by norm_num, claim_C7_amended 1 2 (by norm_num)⟩

/-! ### Properties of `write_at` -/

theorem write_at_length (buf data : List ℕ) (offset : ℕ) :
    (write_at buf data offset).length =
      max buf.length (offset + data.length) := by
  unfold write_at
  rw [List.length_map, List.length_range]

theorem write_at_getD (buf data : List ℕ) (offset i : ℕ) :
    (write_at buf data offset).getD i 0 =
      if offset ≤ i ∧ i < offset + data.length then data.getD (i - offset) 0
      else buf.getD i 0 := by
  by_cases hi : i < max buf.length (offset + data.length)
  · have hlen : i < (write_at buf data offset).length := by
      rw [write_at_length]; exact hi
    rw [List.getD_eq_getElem?_getD]
    unfold write_at
    rw [List.getElem?_map, List.getElem?_range hi]
    rfl
  · have h1 : (write_at buf data offset).getD i 0 = 0 := by
      rw [List.getD_eq_getElem?_getD, List.getElem?_eq_none, Option.getD_none]
      rw [write_at_length]; omega
    have h2 : buf.getD i 0 = 0 := by
      rw [List.getD_eq_getElem?_getD, List.getElem?_eq_none, Option.getD_none]
      omega
    rw [h1, if_neg (by omega), h2]

theorem list_eq_of_getD {l₁ l₂ : List ℕ} (hlen : l₁.length = l₂.length)
    (h : ∀ i, l₁.getD i 0 = l₂.getD i 0) : l₁ = l₂ := by
  apply List.ext_getElem hlen
  intro i h1 h2
  have := h i
  rwa [List.getD_eq_getElem l₁ 0 h1, List.getD_eq_getElem l₂ 0 h2] at this

/-- Positioned writes to disjoint ranges commute. -/
theorem write_at_comm (z d1 d2 : List ℕ) (o1 o2 : ℕ)
    (hdisj : o1 + d1.length ≤ o2 ∨ o2 + d2.length ≤ o1) :
    write_at (write_at z d1 o1) d2 o2 = write_at (write_at z d2 o2) d1 o1 := by
  apply list_eq_of_getD
  · rw [write_at_length, write_at_length, write_at_length, write_at_length]
    omega
  · intro i
    rw [write_at_getD, write_at_getD, write_at_getD, write_at_getD]
    split_ifs <;> first | rfl | omega

/-- **C9**: writing a fixed set of chunk results with pairwise-disjoint
ranges covering a fresh pre-sized buffer yields byte-identical final
contents under every permutation of the write order. -/
theorem claim_C9_write_order (n : ℕ) (chunks chunks' : List (ℕ × List ℕ))
    (hperm : chunks.Perm chunks')
    (hdisj : chunks.Pairwise fun a b =>
      a.1 + a.2.length ≤ b.1 ∨ b.1 + b.2.length ≤ a.1)
    (hbound : ∀ c ∈ chunks, c.1 + c.2.length ≤ n)
    (hcover : ∀ i < n, ∃ c ∈ chunks, c.1 ≤ i ∧ i < c.1 + c.2.length) :
    chunks.foldl (fun buf c => write_at buf c.2 c.1) (List.replicate n 0) =
      chunks'.foldl (fun buf c => write_at buf c.2 c.1)
        (List.replicate n 0) := by
  apply hperm.foldl_eq'
  intro x hx y hy z
  by_cases hxy : x = y
  · subst hxy; rfl
  · have hsym : Symmetric (fun a b : ℕ × List ℕ =>
        a.1 + a.2.length ≤ b.1 ∨ b.1 + b.2.length ≤ a.1) :=
      fun a b h => h.symm
    exact write_at_comm z x.2 y.2 x.1 y.1 (hdisj.forall hsym hx hy hxy)

/-- Witness for C9: two disjoint chunks covering a 4-byte buffer, written in
both orders. -/
theorem claim_C9_write_order_witness :
    [(0, [1, 2]), (2, [3, 4])].Perm [(2, [3, 4]), (0, [1, 2])] ∧
    ([(0, [1, 2]), (2, [3, 4])].foldl
        (fun buf (c : ℕ × List ℕ) => write_at buf c.2 c.1)
        (List.replicate 4 0) =
      [(2, [3, 4]), (0, [1, 2])].foldl
        (fun buf (c : ℕ × List ℕ) => write_at buf c.2 c.1)
        (List.replicate 4 0)) := by
  have hperm : [((0 : ℕ), [1, 2]), (2, [3, 4])].Perm
      [(2, [3, 4]), (0, [1, 2])] := by decide
  exact ⟨hperm, claim_C9_write_order 4 _ _ hperm (by decide) (by decide)
    (by decide)⟩

/-! ### The admission bound -/

theorem DLReachable_invariant {n c : ℕ} {s : DLState}
    (h : DLReachable n c s) : s.available + s.inFlight = c := by
  induction h with
  | refl => rfl
  | tail _ hstep ih =>
    cases hstep with
    | acquire hp ha => simp only at ih ⊢; omega
    | settle hf => simp only at ih ⊢; omega

/-- **C4**: in every state reachable during the download (admission takes a
free permit before the fetch is issued; settling a fetch — successfully or
not — releases its permit immediately, before its result is written), the
number of in-flight ranged fetches never exceeds the plan's concurrency. -/
theorem claim_C4_bounded_concurrency (ts : ℕ) (s : DLState)
    (h : DLReachable
      (planRanges ts (calculate_optimal_chunk_size ts)).length
      (calculate_optimal_concurrency ts) s) :
    s.inFlight ≤ calculate_optimal_concurrency ts := by
  have := DLReachable_invariant h
  omega

/-- Witness for C4: after admitting the single range of a 10-byte object,
one fetch is in flight, which is within the concurrency bound. -/
theorem claim_C4_bounded_concurrency_witness :
    DLReachable (planRanges 10 (calculate_optimal_chunk_size 10)).length
      (calculate_optimal_concurrency 10)
      ⟨(planRanges 10 (calculate_optimal_chunk_size 10)).length - 1,
        calculate_optimal_concurrency 10 - 1, 1, 0⟩ ∧
    (⟨(planRanges 10 (calculate_optimal_chunk_size 10)).length - 1,
        calculate_optimal_concurrency 10 - 1, 1, 0⟩ : DLState).inFlight ≤
      calculate_optimal_concurrency 10 := by
  have hn : (planRanges 10 (calculate_optimal_chunk_size 10)).length = 1 := by
    rfl
  have hc : 0 < calculate_optimal_concurrency 10 := by
    have : sizeGb 10 ≤ 0.5 := by unfold sizeGb; norm_num
    rw [concurrency_branch_low this]
    omega
  have hstep : DLReachable
      (planRanges 10 (calculate_optimal_chunk_size 10)).length
      (calculate_optimal_concurrency 10)
      ⟨(planRanges 10 (calculate_optimal_chunk_size 10)).length - 1,
        calculate_optimal_concurrency 10 - 1, 1, 0⟩ := by
    apply Relation.ReflTransGen.single
    have := DLStep.acquire (DLInit
      (planRanges 10 (calculate_optimal_chunk_size 10)).length
      (calculate_optimal_concurrency 10)) (by rw [hn] at *; exact Nat.one_pos) hc
    simpa [DLInit] using this
  exact ⟨hstep, claim_C4_bounded_concurrency 10 _ hstep⟩

/-! ### Properties of the await-and-write loop -/

/-- Task `i` of `rs` "is good" for the drain loop started at write index
`idx`: its fetch succeeded and its positioned write will succeed. -/
def GoodAt (wo : ℕ → Bool) (idx : ℕ)
    (rs : List (Except String (List ℕ × ℕ))) (i : ℕ) : Prop :=
  (∃ v, rs[i]? = some (Except.ok v)) ∧ wo (idx + i) = true

theorem GoodAt_cons_succ {wo : ℕ → Bool} {idx : ℕ}
    {t : Except String (List ℕ × ℕ)} {rest : List (Except String (List ℕ × ℕ))}
    {i : ℕ} :
    GoodAt wo idx (t :: rest) (i + 1) ↔ GoodAt wo (idx + 1) rest i := by
  unfold GoodAt
  have h : idx + (i + 1) = idx + 1 + i := by omega
  rw [List.getElem?_cons_succ, h]

theorem GoodAt_cons_zero {wo : ℕ → Bool} {idx : ℕ}
    {t : Except String (List ℕ × ℕ)}
    {rest : List (Except String (List ℕ × ℕ))} :
    GoodAt wo idx (t :: rest) 0 ↔ (∃ v, t = Except.ok v) ∧ wo idx = true := by
  unfold GoodAt
  rw [List.getElem?_cons_zero, Nat.add_zero]
  simp

theorem drain_all_good {wo : ℕ → Bool} :
    ∀ (rs : List (Except String (List ℕ × ℕ))) (idx : ℕ) (buf : List ℕ),
      (∀ i < rs.length, GoodAt wo idx rs i) →
      (∃ b, (drainTasks wo rs idx buf).1 = .ok b) ∧
        (drainTasks wo rs idx buf).2 = rs.length := by
  intro rs
  induction rs with
  | nil => intro idx buf _; exact ⟨⟨buf, rfl⟩, rfl⟩
  | cons t rest ih =>
    intro idx buf h
    have h0 := (GoodAt_cons_zero.mp (h 0 (by simp)))
    obtain ⟨⟨⟨data, offset⟩, rfl⟩, hw⟩ := h0
    have hrest : ∀ i < rest.length, GoodAt wo (idx + 1) rest i := by
      intro i hi
      exact GoodAt_cons_succ.mp (h (i + 1) (by simp; omega))
    have hih := ih (idx + 1) (write_at buf data offset) hrest
    simp only [drainTasks, hw, if_true]
    exact ⟨hih.1, by rw [List.length_cons, hih.2]⟩

theorem drain_first_bad {wo : ℕ → Bool} :
    ∀ (rs : List (Except String (List ℕ × ℕ))) (idx : ℕ) (buf : List ℕ),
      ¬ (∀ i < rs.length, GoodAt wo idx rs i) →
      ∃ k, k < rs.length ∧ (∀ i < k, GoodAt wo idx rs i) ∧
        ¬ GoodAt wo idx rs k ∧
        (drainTasks wo rs idx buf).2 = k + 1 ∧
        ∃ e, (drainTasks wo rs idx buf).1 = .error e := by
  intro rs
  induction rs with
  | nil => intro idx buf h; exact absurd (by intro i hi; simp at hi) h
  | cons t rest ih =>
    intro idx buf h
    match t with
    | .error e =>
      refine ⟨0, by simp, by intro i hi; omega, ?_, rfl, e, rfl⟩
      rw [GoodAt_cons_zero]
      rintro ⟨⟨v, hv⟩, -⟩
      exact Except.noConfusion hv
    | .ok (data, offset) =>
      by_cases hw : wo idx
      · have h0 : GoodAt wo idx (Except.ok (data, offset) :: rest) 0 :=
          GoodAt_cons_zero.mpr ⟨⟨(data, offset), rfl⟩, hw⟩
        have hrest : ¬ ∀ i < rest.length, GoodAt wo (idx + 1) rest i := by
          intro hall
          apply h
          intro i hi
          match i with
          | 0 => exact h0
          | j + 1 =>
            exact GoodAt_cons_succ.mpr (hall j (by simp at hi; omega))
        obtain ⟨k, hk, hgood, hbad, hcount, e, herr⟩ :=
          ih (idx + 1) (write_at buf data offset) hrest
        refine ⟨k + 1, by simp; omega, ?_, ?_, ?_, e, ?_⟩
        · intro i hi
          match i with
          | 0 => exact h0
          | j + 1 => exact GoodAt_cons_succ.mpr (hgood j (by omega))
        · rw [GoodAt_cons_succ]
          exact hbad
        · simp only [drainTasks, hw, if_true]
          rw [hcount]
        · simp only [drainTasks, hw, if_true]
          exact herr
      · refine ⟨0, by simp, by intro i hi; omega, ?_, ?_, ?_⟩
        · rw [GoodAt_cons_zero]
          rintro ⟨-, hv⟩
          exact hw (by simp [hv])
        · simp [drainTasks, hw]
        · exact ⟨"Failed to write to memfd", by simp [drainTasks, hw]⟩

/-! ### Concrete worlds used as witnesses and counterexamples -/

/-- A world whose single ranged fetch returns a 5-byte body for the 10-byte
range `[0, 9]` (a short body), with every other operation succeeding. -/
def wShortBody : S3World :=
  ⟨.ok 10, .ok (), 3, true, fun _ _ => .body (List.replicate 5 7),
    fun _ => true⟩

/-- A 10,000,000-byte object (3 planned ranges); the fetch of the second
range (starting at 4194304) fails, all other operations succeed. -/
def wSecondFetchFails : S3World :=
  ⟨.ok 10000000, .ok (), 3, true,
    fun s _ => if s = 4194304 then .getError else .body [1, 2, 3],
    fun _ => true⟩

/-- A fully successful world for a 10-byte object. -/
def wAllOk : S3World :=
  ⟨.ok 10, .ok (), 3, true, fun _ _ => .body (List.replicate 10 2),
    fun _ => true⟩

/-- A world whose metadata probe fails. -/
def wHeadFails : S3World :=
  ⟨.error "Failed to get object metadata from S3", .ok (), 3, true,
    fun _ _ => .body [], fun _ => true⟩

/-- **C2 counterexample**: the admitted fetch of the 10-byte range `[0, 9]`
returns a 5-byte body; contrary to the claim, `download_chunk` reports
success (no length validation exists), the run does not fail, a child
process is started (`execCalled`), and the partially filled buffer is
handed over. -/
theorem claim_C2_counterexample :
    (List.replicate 5 7).length ≠ 9 - 0 + 1 ∧
    download_chunk wShortBody 0 9 = .ok (List.replicate 5 7, 0) ∧
    create_memfd_and_exec wShortBody "p".toList [] "X".toList =
      .execCalled "p".toList [] (memfdPathChars 3)
        [7, 7, 7, 7, 7, 0, 0, 0, 0, 0] :=
  ⟨by decide, by rfl, by rfl⟩

/-- **C2 (amended)**: `download_chunk` performs no body-length validation:
whenever the ranged GET and the body collection succeed it returns
`Ok(body, start)` whatever the body's length; it reports an error exactly
when the GET request or the body collection fails. -/
theorem claim_C2_amended (w : S3World) (start e : ℕ) :
    (∀ bs, w.fetch start e = .body bs →
      download_chunk w start e = .ok (bs, start)) ∧
    (w.fetch start e = .getError →
      download_chunk w start e = .error "Failed to get object from S3") ∧
    (w.fetch start e = .collectError →
      download_chunk w start e = .error "Failed to collect response body") := by
  refine ⟨fun bs hb => ?_, fun hg => ?_, fun hc => ?_⟩ <;>
    unfold download_chunk
  · rw [hb]
  · rw [hg]
  · rw [hc]

/-- Witness for the amended C2 at the short-body world. -/
theorem claim_C2_amended_witness :
    wShortBody.fetch 0 9 = .body (List.replicate 5 7) ∧
    download_chunk wShortBody 0 9 = .ok (List.replicate 5 7, 0) :=
  ⟨by rfl, (claim_C2_amended wShortBody 0 9).1 (List.replicate 5 7) (by rfl)⟩

/-! ### C3: no exec after any failed stage -/

/-- Some stage of the download fails: the metadata probe, the memfd
creation, the `ftruncate` pre-sizing, or — for the probed size — some
planned range's fetch or positioned write. -/
def DownloadStageFails (w : S3World) : Prop :=
  (∃ e, w.headSize = .error e) ∨
  (∃ e, w.memfdCreate = .error e) ∨
  w.ftruncateOk = false ∨
  (∃ ts, w.headSize = .ok ts ∧
    ∃ i, i < (taskResults w ts).length ∧
      ¬ GoodAt w.writeOk 0 (taskResults w ts) i)

theorem instr_head_fail {w : S3World} {e : String}
    (hh : w.headSize = .error e) :
    parallel_download_instr w = (.error e, 0) := by
  unfold parallel_download_instr
  rw [hh]

theorem instr_memfd_fail {w : S3World} {ts : ℕ} {e : String}
    (hh : w.headSize = .ok ts) (hm : w.memfdCreate = .error e) :
    parallel_download_instr w = (.error e, 0) := by
  unfold parallel_download_instr
  rw [hh, hm]

theorem instr_ftruncate_fail {w : S3World} {ts : ℕ}
    (hh : w.headSize = .ok ts) (hm : w.memfdCreate = .ok ())
    (hf : w.ftruncateOk = false) :
    parallel_download_instr w = (.error "Failed to set file size", 0) := by
  unfold parallel_download_instr
  rw [hh, hm, hf]
  rfl

theorem instr_eq_drain {w : S3World} {ts : ℕ}
    (hh : w.headSize = .ok ts) (hm : w.memfdCreate = .ok ())
    (hf : w.ftruncateOk = true) :
    parallel_download_instr w =
      drainTasks w.writeOk (taskResults w ts) 0 (List.replicate ts 0) := by
  unfold parallel_download_instr
  rw [hh, hm, hf]
  rfl

theorem download_fails_of_stage_fails {w : S3World}
    (h : DownloadStageFails w) :
    ∃ e, parallel_download_to_memfd w = .error e := by
  unfold parallel_download_to_memfd
  rcases h with ⟨e, he⟩ | ⟨e, he⟩ | hfalse | ⟨ts, hts, i, hi, hbad⟩
  · exact ⟨e, by rw [instr_head_fail he]⟩
  · cases hh : w.headSize with
    | error e' => exact ⟨e', by rw [instr_head_fail hh]⟩
    | ok ts => exact ⟨e, by rw [instr_memfd_fail hh he]⟩
  · cases hh : w.headSize with
    | error e' => exact ⟨e', by rw [instr_head_fail hh]⟩
    | ok ts =>
      cases hm : w.memfdCreate with
      | error e' => exact ⟨e', by rw [instr_memfd_fail hh hm]⟩
      | ok u =>
        cases u
        exact ⟨"Failed to set file size",
          by rw [instr_ftruncate_fail hh hm hfalse]⟩
  · cases hm : w.memfdCreate with
    | error e' => exact ⟨e', by rw [instr_memfd_fail hts hm]⟩
    | ok u =>
      cases u
      cases hfo : w.ftruncateOk with
      | false =>
        exact ⟨"Failed to set file size",
          by rw [instr_ftruncate_fail hts hm hfo]⟩
      | true =>
        have hnall : ¬ ∀ j < (taskResults w ts).length,
            GoodAt w.writeOk 0 (taskResults w ts) j := by
          intro hall
          exact hbad (hall i hi)
        obtain ⟨k, _, _, _, _, e, herr⟩ :=
          drain_first_bad (taskResults w ts) 0 (List.replicate ts 0) hnall
        exact ⟨e, by rw [instr_eq_drain hts hm hfo]; exact herr⟩

/-- **C3**: if any stage of the download fails (metadata probe, buffer
allocation or pre-sizing, any ranged fetch, or any positioned write), then
the error propagates out of `create_memfd_and_exec` as `failed` and the
exec is never invoked. -/
theorem claim_C3_no_exec_on_failure (w : S3World) (program : List Char)
    (args : List (List Char)) (ph : List Char) (h : DownloadStageFails w) :
    ∃ e, create_memfd_and_exec w program args ph = .failed e := by
  obtain ⟨e, he⟩ := download_fails_of_stage_fails h
  refine ⟨e, ?_⟩
  unfold create_memfd_and_exec
  rw [he]

/-- Witness for C3 at a world whose metadata probe fails. -/
theorem claim_C3_no_exec_on_failure_witness :
    DownloadStageFails wHeadFails ∧
    ∃ e, create_memfd_and_exec wHeadFails "p".toList [] [] = .failed e :=
  ⟨Or.inl ⟨"Failed to get object metadata from S3", rfl⟩,
    claim_C3_no_exec_on_failure wHeadFails "p".toList [] []
      (Or.inl ⟨"Failed to get object metadata from S3", rfl⟩)⟩

/-! ### C5: success iff all chunks succeed; draining behaviour -/

/-- **C5 counterexample**: for a 10,000,000-byte object all 3 planned
ranges are admitted (the spawn loop finishes before the await loop starts),
and the second range's fetch fails.  The run fails, but only 2 of the 3
admitted tasks were awaited before `parallel_download_to_memfd` returned:
the early-returning `?` operator skips the remaining already-admitted
fetch, contradicting the claim that every admitted sibling is awaited
before the call returns. -/
theorem claim_C5_counterexample :
    admittedCount wSecondFetchFails = 3 ∧
    (parallel_download_instr wSecondFetchFails).1 =
      .error "Failed to get object from S3" ∧
    (parallel_download_instr wSecondFetchFails).2 = 2 ∧
    (2 : ℕ) ≠ 3 :=
  ⟨rfl, rfl, rfl, by decide⟩

/-- **C5 (amended)**: when the pre-download stages succeed, the overall
call succeeds iff every range's fetch succeeds and every chunk's positioned
write succeeds; if all succeed, every admitted task is awaited.  On the
first failure the overall result is a failure, but the await loop stops at
the first failing task (in admission order): exactly `k + 1` of the
admitted tasks are awaited, where `k` is the index of the first failure —
later-admitted fetches are neither cancelled nor awaited before the call
returns. -/
theorem claim_C5_amended (w : S3World) (ts : ℕ)
    (hh : w.headSize = .ok ts) (hm : w.memfdCreate = .ok ())
    (hf : w.ftruncateOk = true) :
    ((∃ b, parallel_download_to_memfd w = .ok b) ↔
      ∀ i < (taskResults w ts).length,
        GoodAt w.writeOk 0 (taskResults w ts) i) ∧
    ((∀ i < (taskResults w ts).length,
        GoodAt w.writeOk 0 (taskResults w ts) i) →
      (parallel_download_instr w).2 = (taskResults w ts).length) ∧
    (¬ (∀ i < (taskResults w ts).length,
        GoodAt w.writeOk 0 (taskResults w ts) i) →
      ∃ k, k < (taskResults w ts).length ∧
        (∀ i < k, GoodAt w.writeOk 0 (taskResults w ts) i) ∧
        ¬ GoodAt w.writeOk 0 (taskResults w ts) k ∧
        (parallel_download_instr w).2 = k + 1 ∧
        ∃ e, parallel_download_to_memfd w = .error e) := by
  have hinstr := instr_eq_drain hh hm hf
  have hpd : parallel_download_to_memfd w =
      (drainTasks w.writeOk (taskResults w ts) 0 (List.replicate ts 0)).1 := by
    unfold parallel_download_to_memfd
    rw [hinstr]
  refine ⟨⟨?_, ?_⟩, ?_, ?_⟩
  · rintro ⟨b, hb⟩
    by_contra hnall
    obtain ⟨k, _, _, _, _, e, herr⟩ :=
      drain_first_bad (taskResults w ts) 0 (List.replicate ts 0) hnall
    rw [hpd, herr] at hb
    exact Except.noConfusion hb
  · intro hall
    obtain ⟨⟨b, hb⟩, -⟩ :=
      drain_all_good (taskResults w ts) 0 (List.replicate ts 0) hall
    exact ⟨b, by rw [hpd]; exact hb⟩
  · intro hall
    obtain ⟨-, hcount⟩ :=
      drain_all_good (taskResults w ts) 0 (List.replicate ts 0) hall
    rw [hinstr]
    exact hcount
  · intro hnall
    obtain ⟨k, hk, hgood, hbad, hcount, e, herr⟩ :=
      drain_first_bad (taskResults w ts) 0 (List.replicate ts 0) hnall
    exact ⟨k, hk, hgood, hbad, by rw [hinstr]; exact hcount,
      e, by rw [hpd]; exact herr⟩

/-- Witness for the amended C5 at the fully successful 10-byte world. -/
theorem claim_C5_amended_witness :
    wAllOk.headSize = .ok 10 ∧
    ((∃ b, parallel_download_to_memfd wAllOk = .ok b) ↔
      ∀ i < (taskResults wAllOk 10).length,
        GoodAt wAllOk.writeOk 0 (taskResults wAllOk 10) i) :=
  ⟨rfl, (claim_C5_amended wAllOk 10 rfl rfl rfl).1⟩

/-! ### C10: the MEMFD_PATH environment variable -/

/-- **C10**: whenever the download succeeds, `create_memfd_and_exec` sets
the process-wide `MEMFD_PATH` environment variable to the resolved
reference `/proc/self/fd/<fd>` before replacing the process image, and the
exec receives the placeholder-substituted argument list; the same resolved
path is used for both. -/
theorem claim_C10_memfd_path (w : S3World) (program : List Char)
    (args : List (List Char)) (ph : List Char) (buf : List ℕ)
    (h : parallel_download_to_memfd w = .ok buf) :
    create_memfd_and_exec w program args ph =
      .execCalled program (substitutePlaceholder args ph (memfdPathChars w.fd))
        (memfdPathChars w.fd) buf := by
  unfold create_memfd_and_exec
  rw [h]

/-- Witness for C10 at the fully successful world. -/
theorem claim_C10_memfd_path_witness :
    parallel_download_to_memfd wAllOk = .ok (List.replicate 10 2) ∧
    create_memfd_and_exec wAllOk "p".toList ["A".toList] "PH".toList =
      .execCalled "p".toList
        (substitutePlaceholder ["A".toList] "PH".toList
          (memfdPathChars wAllOk.fd))
        (memfdPathChars wAllOk.fd) (List.replicate 10 2) :=
  ⟨by rfl, claim_C10_memfd_path wAllOk "p".toList ["A".toList] "PH".toList
    (List.replicate 10 2) (by rfl)⟩

/-! ### Properties of `rustReplace` -/

theorem replaceAux_fuel {pat rep : List Char} :
    ∀ f1 f2 s, s.length ≤ f1 → s.length ≤ f2 →
      replaceAux pat rep f1 s = replaceAux pat rep f2 s := by
  intro f1
  induction f1 with
  | zero =>
    intro f2 s h1 h2
    have hs : s = [] := List.eq_nil_of_length_eq_zero (by omega)
    subst hs
    cases f2 <;> rfl
  | succ n ih =>
    intro f2 s h1 h2
    cases s with
    | nil => cases f2 <;> rfl
    | cons c rest =>
      cases f2 with
      | zero => simp at h2
      | succ m =>
        simp only [replaceAux]
        by_cases hc : pat ≠ [] ∧ (c :: rest).take pat.length = pat
        · rw [if_pos hc, if_pos hc]
          congr 1
          have hp1 : 1 ≤ pat.length := List.length_pos.mpr hc.1
          apply ih
          · simp only [List.length_drop, List.length_cons] at *
            omega
          · simp only [List.length_drop, List.length_cons] at *
            omega
        · rw [if_neg hc, if_neg hc]
          congr 1
          apply ih
          · simp only [List.length_cons] at h1
            omega
          · simp only [List.length_cons] at h2
            omega

theorem rustReplace_head_match {pat rep s : List Char} (hpat : pat ≠ [])
    (hm : s.take pat.length = pat) :
    rustReplace s pat rep = rep ++ rustReplace (s.drop pat.length) pat rep := by
  cases s with
  | nil =>
    exfalso
    rw [List.take_nil] at hm
    exact hpat hm.symm
  | cons c rest =>
    unfold rustReplace
    simp only [List.length_cons, replaceAux]
    rw [if_pos (And.intro hpat hm)]
    congr 1
    have hp1 : 1 ≤ pat.length := List.length_pos.mpr hpat
    apply replaceAux_fuel
    · simp only [List.length_drop, List.length_cons]
      omega
    · exact Nat.le_refl _

theorem rustReplace_head_nomatch {pat rep : List Char} {c : Char}
    {rest : List Char} (hno : ¬ (c :: rest).take pat.length = pat) :
    rustReplace (c :: rest) pat rep = c :: rustReplace rest pat rep := by
  unfold rustReplace
  simp only [List.length_cons, replaceAux]
  rw [if_neg fun h => hno h.2]

theorem rustReplace_no_occur {pat rep : List Char} (hpat : pat ≠ []) :
    ∀ s : List Char, (∀ i, ¬ OccursAt pat s i) →
      rustReplace s pat rep = s := by
  intro s
  induction s with
  | nil => intro _; rfl
  | cons c rest ih =>
    intro h
    have h0 : ¬ (c :: rest).take pat.length = pat := by
      have := h 0
      unfold OccursAt at this
      rwa [List.drop_zero] at this
    rw [rustReplace_head_nomatch h0]
    congr 1
    apply ih
    intro i hocc
    apply h (i + 1)
    unfold OccursAt at hocc ⊢
    rwa [List.drop_succ_cons]

theorem noOccur_of_bounded {pat s : List Char} (hpat : pat ≠ [])
    (h : ∀ i < s.length, ¬ OccursAt pat s i) :
    ∀ i, ¬ OccursAt pat s i := by
  intro i hocc
  by_cases hi : i < s.length
  · exact h i hi hocc
  · unfold OccursAt at hocc
    rw [List.drop_eq_nil_of_le (by omega), List.take_nil] at hocc
    exact hpat hocc.symm

theorem rustReplace_skip {pat rep : List Char} (hpat : pat ≠ []) :
    ∀ u t : List Char, (∀ i < u.length, ¬ OccursAt pat (u ++ t) i) →
      rustReplace (u ++ t) pat rep = u ++ rustReplace t pat rep := by
  intro u
  induction u with
  | nil => intro t _; rw [List.nil_append, List.nil_append]
  | cons c u' ih =>
    intro t h
    have h0 : ¬ (c :: (u' ++ t)).take pat.length = pat := by
      have := h 0 (by simp)
      unfold OccursAt at this
      rwa [List.drop_zero, List.cons_append] at this
    have hrec := ih t (by
      intro i hi hocc
      apply h (i + 1) (by simp only [List.length_cons]; omega)
      unfold OccursAt at hocc ⊢
      rw [List.cons_append, List.drop_succ_cons]
      exact hocc)
    rw [List.cons_append, rustReplace_head_nomatch h0, hrec, List.cons_append]

theorem rustReplace_consume {pat rep : List Char} (hpat : pat ≠ [])
    (t : List Char) :
    rustReplace (pat ++ t) pat rep = rep ++ rustReplace t pat rep := by
  have hm : (pat ++ t).take pat.length = pat := List.take_left pat t
  rw [rustReplace_head_match hpat hm, List.drop_left]

theorem drop_append_length {a b : List Char} (k : ℕ) :
    (a ++ b).drop (a.length + k) = b.drop k := by
  rw [← List.drop_drop, List.drop_left]

theorem rustReplace_two_occurrences {pat rep : List Char} (hpat : pat ≠ [])
    (u v z : List Char)
    (H : ∀ i < (u ++ (pat ++ (v ++ (pat ++ z)))).length,
      (OccursAt pat (u ++ (pat ++ (v ++ (pat ++ z)))) i ↔
        (i = u.length ∨ i = u.length + pat.length + v.length))) :
    rustReplace (u ++ (pat ++ (v ++ (pat ++ z)))) pat rep =
      u ++ (rep ++ (v ++ (rep ++ z))) := by
  have hp1 : 1 ≤ pat.length := List.length_pos.mpr hpat
  have hlen : (u ++ (pat ++ (v ++ (pat ++ z)))).length =
      u.length + pat.length + v.length + pat.length + z.length := by
    simp only [List.length_append]
    omega
  have h1 : ∀ i < u.length, ¬ OccursAt pat (u ++ (pat ++ (v ++ (pat ++ z)))) i := by
    intro i hi hocc
    have := (H i (by omega)).mp hocc
    omega
  rw [rustReplace_skip hpat u _ h1, rustReplace_consume hpat]
  have h3 : ∀ i < v.length, ¬ OccursAt pat (v ++ (pat ++ z)) i := by
    intro i hi hocc
    have hd3 : (u ++ (pat ++ (v ++ (pat ++ z)))).drop
        (u.length + (pat.length + i)) = (v ++ (pat ++ z)).drop i := by
      rw [drop_append_length, drop_append_length]
    have htr : OccursAt pat (u ++ (pat ++ (v ++ (pat ++ z))))
        (u.length + (pat.length + i)) := by
      unfold OccursAt at hocc ⊢
      rw [hd3]
      exact hocc
    have := (H (u.length + (pat.length + i)) (by omega)).mp htr
    omega
  rw [rustReplace_skip hpat v _ h3, rustReplace_consume hpat]
  have h5 : ∀ i, ¬ OccursAt pat z i := by
    apply noOccur_of_bounded hpat
    intro i hi hocc
    have hd5 : (u ++ (pat ++ (v ++ (pat ++ z)))).drop
        (u.length + (pat.length + (v.length + (pat.length + i)))) =
        z.drop i := by
      rw [drop_append_length, drop_append_length, drop_append_length,
        drop_append_length]
    have htr : OccursAt pat (u ++ (pat ++ (v ++ (pat ++ z))))
        (u.length + (pat.length + (v.length + (pat.length + i)))) := by
      unfold OccursAt at hocc ⊢
      rw [hd5]
      exact hocc
    have := (H (u.length + (pat.length + (v.length + (pat.length + i))))
      (by omega)).mp htr
    omega
  rw [rustReplace_no_occur hpat z h5]

/-- **C8**: placeholder substitution maps the argument list elementwise
with `str::replace`, so it preserves the list's length; an argument in which
the (non-empty) token occurs nowhere passes through unchanged; and an
argument of the shape `u ++ token ++ v ++ token ++ z` in which the token
occurs exactly at those two positions is rewritten to
`u ++ path ++ v ++ path ++ z` — both occurrences replaced with the identical
path string. -/
theorem claim_C8_substitution (args : List (List Char)) (pat rep : List Char)
    (hpat : pat ≠ []) :
    (substitutePlaceholder args pat rep).length = args.length ∧
    (∀ arg ∈ args, (∀ i < arg.length, ¬ OccursAt pat arg i) →
      rustReplace arg pat rep = arg) ∧
    (∀ u v z : List Char,
      (∀ i < (u ++ (pat ++ (v ++ (pat ++ z)))).length,
        (OccursAt pat (u ++ (pat ++ (v ++ (pat ++ z)))) i ↔
          (i = u.length ∨ i = u.length + pat.length + v.length))) →
      rustReplace (u ++ (pat ++ (v ++ (pat ++ z)))) pat rep =
        u ++ (rep ++ (v ++ (rep ++ z)))) := by
  refine ⟨by simp [substitutePlaceholder], ?_, ?_⟩
  · intro arg _ hno
    exact rustReplace_no_occur hpat arg (noOccur_of_bounded hpat hno)
  · intro u v z H
    exact rustReplace_two_occurrences hpat u v z H

/-- Witness for C8 with token `"MM"`, path `"/p"`, argument list
`["aMMb"]`. -/
theorem claim_C8_substitution_witness :
    "MM".toList ≠ [] ∧
    ((substitutePlaceholder ["aMMb".toList] "MM".toList "/p".toList).length =
        ["aMMb".toList].length ∧
      (∀ arg ∈ ["aMMb".toList],
        (∀ i < arg.length, ¬ OccursAt "MM".toList arg i) →
        rustReplace arg "MM".toList "/p".toList = arg) ∧
      (∀ u v z : List Char,
        (∀ i < (u ++ ("MM".toList ++ (v ++ ("MM".toList ++ z)))).length,
          (OccursAt "MM".toList
              (u ++ ("MM".toList ++ (v ++ ("MM".toList ++ z)))) i ↔
            (i = u.length ∨
              i = u.length + "MM".toList.length + v.length))) →
        rustReplace (u ++ ("MM".toList ++ (v ++ ("MM".toList ++ z))))
            "MM".toList "/p".toList =
          u ++ ("/p".toList ++ (v ++ ("/p".toList ++ z))))) :=
  ⟨by decide, claim_C8_substitution ["aMMb".toList] "MM".toList "/p".toList
    (by decide)⟩
